import Mathlib

/-!
Verification development for the ECONOMIC_DASHBOARD incremental
cache-merge-and-derive pipeline (src/data/data_fetcher.py and
src/data/data_processing.py).

Shallow embedding conventions:
* calendar dates are integers (day numbers);
* observation values are rationals;
* a pandas DataFrame is a date index together with a list of named columns of
  optional values, where a missing cell (NaN) is `none`;
* the module-level files `CACHE_FILE` and `CACHE_METADATA_FILE` are an explicit
  `FileSystem` record threaded through the pipeline;
* the network is a function from a series id to a `FetchResult`: either the
  fetched observations (after the retry decorator succeeded) or the exception
  escaping `fetch_series` after retries are exhausted;
* a Python run that raises an uncaught exception is `Except.error`.

In `fetch_fred_data` the variable `cached_data` is initialised to the Python
dict `{}` and only replaced by a DataFrame when the cache file exists and
`force_refresh` is false; accessing `.empty` on the dict raises
`AttributeError`.  The embedding models that variable as the sum type `Cached`
and the attribute error as an `Except.error`.
-/

namespace EconDash

/-- A pandas DataFrame: a date index plus named columns of optional values
(`none` is a missing cell / NaN).  Columns are kept as a list because pandas
permits duplicate column labels (`pd.concat` can create them). -/
structure DataFrame where
  index : List Int
  cols : List (String × List (Option ℚ))
deriving DecidableEq

/-- `df.columns` of pandas: the list of column labels (duplicates kept). -/
def DataFrame.columns (df : DataFrame) : List String := df.cols.map Prod.fst

/-- `df.empty` of pandas: true iff either axis has length zero. -/
def DataFrame.isEmptyDF (df : DataFrame) : Bool := df.index.isEmpty || df.cols.isEmpty

/-- The value of the Python variable `cached_data` in `fetch_fred_data`:
either the initial dict `{}` (cold start or `force_refresh=True`) or the
DataFrame loaded from the pickle. -/
inductive Cached where
  | emptyDict : Cached
  | df : DataFrame → Cached
deriving DecidableEq

/-- Outcome of `fetch_series(info["id"])` as seen by the caller: the series
observations on success, or the exception escaping after the 3 retry
attempts of the `@retry` decorator are exhausted. -/
inductive FetchResult where
  | ok : List (Int × ℚ) → FetchResult
  | err : String → FetchResult

/-- The on-disk state: `CACHE_FILE` (pickled DataFrame) and
`CACHE_METADATA_FILE` (JSON list of indicator keys); `none` means the file
does not exist. -/
structure FileSystem where
  cacheFile : Option DataFrame
  metadataFile : Option (List String)
deriving DecidableEq

/-- First position of a date in an index (pandas label lookup). -/
def posOf (l : List Int) (d : Int) : Option Nat :=
  match l with
  | [] => none
  | e :: es => if e = d then some 0 else (posOf es d).map (· + 1)

/-- `index.min()` of pandas (meaningful only on a nonempty index). -/
def idxMin : List Int → Int
  | [] => 0
  | d :: ds => ds.foldl min d

/-- `index.max()` of pandas (meaningful only on a nonempty index). -/
def idxMax : List Int → Int
  | [] => 0
  | d :: ds => ds.foldl max d

/-- `pd.date_range(start, end, freq="D")`: the contiguous calendar days from
`lo` to `hi` inclusive. -/
def dateRange (lo hi : Int) : List Int :=
  (List.range (hi - lo + 1).toNat).map (fun (k : Nat) => lo + (k : Int))

/-- Insert a date into a sorted duplicate-free list, keeping it sorted and
duplicate-free. -/
def insertDate (d : Int) : List Int → List Int
  | [] => [d]
  | e :: es =>
    if d < e then d :: e :: es
    else if d = e then e :: es
    else e :: insertDate d es

/-- All date stamps occurring in a collection of fetched series, with
repetitions; only membership in this list ever matters. -/
def allDates (ls : List (String × List (Int × ℚ))) : List Int :=
  (ls.map (fun s => s.2.map Prod.fst)).flatten

/-- The sorted union of the date stamps of the fetched series: the index that
`pd.DataFrame(new_data)` builds when aligning the series of the dict. -/
def unionDates (ls : List (String × List (Int × ℚ))) : List Int :=
  (allDates ls).foldr insertDate []

/-- Value of a raw series at a date (first occurrence). -/
def seriesLookup (s : List (Int × ℚ)) (d : Int) : Option ℚ :=
  match s with
  | [] => none
  | p :: rest => if p.1 = d then some p.2 else seriesLookup rest d

/-- `pd.DataFrame(new_data)`: align every fetched series onto the sorted
union of their date stamps; dates a series does not cover become missing. -/
def dfOfSeries (ls : List (String × List (Int × ℚ))) : DataFrame :=
  let idx := unionDates ls
  { index := idx
    cols := ls.map (fun s => (s.1, idx.map (fun d => seriesLookup s.2 d))) }

/-- `df.reindex(newIdx)`: row labels present in the old index keep their
values, new labels get missing cells. -/
def reindex (df : DataFrame) (newIdx : List Int) : DataFrame :=
  { index := newIdx
    cols := df.cols.map (fun c =>
      (c.1, newIdx.map (fun d =>
        match posOf df.index d with
        | some i => c.2.getD i none
        | none => none))) }

/-- `pd.concat([a, b], axis=1)` for frames already aligned on the same index:
the columns of `a` followed by the columns of `b` (duplicate labels kept). -/
def concatCols (a b : DataFrame) : DataFrame :=
  { index := a.index, cols := a.cols ++ b.cols }

/-- First column with a given label together with pandas positional lookup:
the cell of `df` at column `name`, row label `d`. -/
def colLookup : List (String × List (Option ℚ)) → String → Option (List (Option ℚ))
  | [], _ => none
  | c :: cs, name => if c.1 = name then some c.2 else colLookup cs name

/-- Cell of `df` at column `name` and date `d` (`none`: absent or NaN). -/
def cellAt (df : DataFrame) (name : String) (d : Int) : Option ℚ :=
  match colLookup df.cols name with
  | none => none
  | some vs =>
    match posOf df.index d with
    | none => none
    | some i => vs.getD i none

/-- The Python error message raised by `cached_data.empty` / `df.empty` when
the variable still holds the initial dict. -/
def dictEmptyError : String := "AttributeError: dict object has no attribute empty"

/-- data_fetcher.py lines 30-46: initialise `cached_data = {}` and
`cached_indicators = set()`; when the cache file exists and
`force_refresh` is false, unpickle it, and read the metadata sidecar if
present, otherwise recompute the indicator set from the columns and write
the sidecar. -/
def loadCache (fs : FileSystem) (forceRefresh : Bool) :
    Cached × List String × FileSystem :=
  match fs.cacheFile, forceRefresh with
  | some cd, false =>
    match fs.metadataFile with
    | some m => (Cached.df cd, m, fs)
    | none => (Cached.df cd, cd.columns, { fs with metadataFile := some cd.columns })
  | _, _ => (Cached.emptyDict, [], fs)

/-- data_fetcher.py lines 53-55: the indicators to (re)fetch — every catalog
entry when `force_refresh`, otherwise the entries whose key is not among the
cached indicators.  Entries are `(key, external id)` pairs of the catalog. -/
def indicatorsToFetch (catalog : List (String × String)) (cachedInds : List String)
    (forceRefresh : Bool) : List (String × String) :=
  catalog.filter (fun p => forceRefresh || !(cachedInds.contains p.1))

/-- data_fetcher.py lines 64-75: the fetch loop.  Each indicator is fetched;
an exception is caught and logged, an empty series is logged, and in both
cases the indicator is skipped; otherwise its observations join `new_data`. -/
def runFetchLoop (fetch : String → FetchResult) :
    List (String × String) → List (String × List (Int × ℚ))
  | [] => []
  | (key, sid) :: rest =>
    match fetch sid with
    | FetchResult.ok s =>
      if s.isEmpty then runFetchLoop fetch rest
      else (key, s) :: runFetchLoop fetch rest
    | FetchResult.err _ => runFetchLoop fetch rest

/-- data_fetcher.py lines 77-98: combine the cached data with the newly
fetched series.  When new data exists, both frames are reindexed onto the
daily `pd.date_range` spanning the union of their date ranges and
concatenated column-wise; evaluating `cached_data.empty` while `cached_data`
is still the initial dict raises `AttributeError`. -/
def combineData (cached : Cached) (newData : List (String × List (Int × ℚ))) :
    Except String Cached :=
  if newData.isEmpty then Except.ok cached
  else
    let newDf := dfOfSeries newData
    if newDf.isEmptyDF then Except.ok cached
    else
      match cached with
      | Cached.emptyDict => Except.error dictEmptyError
      | Cached.df cd =>
        if cd.isEmptyDF then
          let r := dateRange (idxMin newDf.index) (idxMax newDf.index)
          Except.ok (Cached.df (reindex newDf r))
        else
          let lo := min (idxMin cd.index) (idxMin newDf.index)
          let hi := max (idxMax cd.index) (idxMax newDf.index)
          let r := dateRange lo hi
          Except.ok (Cached.df (concatCols (reindex cd r) (reindex newDf r)))

/-- data_fetcher.py lines 100-110: evaluating `df.empty` on the initial dict
raises; an empty DataFrame is only logged and returned without saving; a
nonempty DataFrame is pickled and the metadata sidecar rewritten as
`list(df.columns)`. -/
def saveCache (df : Cached) (fs : FileSystem) : Except String (DataFrame × FileSystem) :=
  match df with
  | Cached.emptyDict => Except.error dictEmptyError
  | Cached.df d =>
    if d.isEmptyDF then Except.ok (d, fs)
    else Except.ok (d, { cacheFile := some d, metadataFile := some d.columns })

/-- data_fetcher.py lines 28-112: `fetch_fred_data(force_refresh)`.  The
catalog stands for `INDICATORS` (key, external id); `fetch` is the provider.
Returns the final DataFrame and the resulting file system, or the uncaught
Python exception. -/
def fetch_fred_data (fs : FileSystem) (catalog : List (String × String))
    (fetch : String → FetchResult) (forceRefresh : Bool) :
    Except String (DataFrame × FileSystem) :=
  let l := loadCache fs forceRefresh
  let toFetch := indicatorsToFetch catalog l.2.1 forceRefresh
  let newData := runFetchLoop fetch toFetch
  match combineData l.1 newData with
  | Except.error e => Except.error e
  | Except.ok df => saveCache df l.2.2

/-- `Series.pct_change(periods=n)` of pandas, as applied in
data_processing.py: relative change against the value `n` rows prior; a row
lacking the lookback or either operand is a missing cell.  (Upstream,
`get_economic_data` has already interpolated every column with
`limit_direction="both"`, so the default forward-fill of `pct_change` is a
no-op on the pipeline's inputs and is not modelled.)  Caveat: at a zero base
value pandas computes `0.0/0.0 = NaN` (a missing cell) or `x/0.0 = ±inf`,
neither of which the rational embedding can represent — Lean's total division
yields `some 0` there instead.  The model is therefore faithful only where
the base value is nonzero, and every theorem below that speaks about derived
cell values carries a nonzero-base hypothesis (`¬ b = 0`, or no `some 0`
observation in the column) confining it to that domain. -/
def pctChange (n : Nat) (vs : List (Option ℚ)) : List (Option ℚ) :=
  (List.range vs.length).map (fun t =>
    if t < n then none
    else
      match vs.getD (t - n) none, vs.getD t none with
      | some b, some a => some ((a - b) / b)
      | _, _ => none)

/-- `series * 100`: scalar multiplication leaves missing cells missing. -/
def mul100 (vs : List (Option ℚ)) : List (Option ℚ) :=
  vs.map (Option.map (fun q => q * 100))

/-- `df[name] = series`: pandas column assignment overwrites an existing
label in place and otherwise appends the new column at the end. -/
def setCol (cols : List (String × List (Option ℚ))) (name : String)
    (vs : List (Option ℚ)) : List (String × List (Option ℚ)) :=
  if cols.any (fun c => c.1 = name) then
    cols.map (fun c => if c.1 = name then (name, vs) else c)
  else cols ++ [(name, vs)]

/-- The three derived columns one loop iteration of data_processing.py
assigns for raw column `c`, computed from `c`'s snapshot values. -/
def derivedTriple (c : String × List (Option ℚ)) : List (String × List (Option ℚ)) :=
  [(c.1 ++ " MoM (%)", mul100 (pctChange 1 c.2)),
   (c.1 ++ " QoQ (%)", mul100 (pctChange 3 c.2)),
   (c.1 ++ " YoY (%)", mul100 (pctChange 12 c.2))]

/-- data_processing.py lines 14-18: `for col in df.columns:` assigns the MoM,
QoQ and YoY columns of every raw column.  `df.columns` is evaluated once when
the loop starts, so the loop ranges over the snapshot of the columns present
before any derived column is added, and each derived series is computed from
the snapshot values of its raw column. -/
def addPctChangeColumns (df : DataFrame) : DataFrame :=
  { index := df.index
    cols := (df.cols.flatMap derivedTriple).foldl
      (fun acc t => setCol acc t.1 t.2) df.cols }

end EconDash

namespace EconDash

/-! Basic lemmas about the helper functions of the embedding. -/

theorem posOf_eq_some_of_mem {l : List Int} {d : Int} (h : d ∈ l) :
    ∃ j, posOf l d = some j ∧ j < l.length ∧ l.getD j 0 = d := by
  induction l with
  | nil => cases h
  | cons e es ih =>
    by_cases he : e = d
    · exact ⟨0, by simp [posOf, he], by simp, by simp [he]⟩
    · have hmem : d ∈ es := by
        cases h with
        | head => exact absurd rfl he
        | tail _ h' => exact h'
      obtain ⟨j, hj, hjl, hjd⟩ := ih hmem
      exact ⟨j + 1, by simp [posOf, he, hj], by simp [hjl], by simpa using hjd⟩

theorem getD_map_of_lt {α β : Type} (f : α → β) (l : List α) (i : Nat) (d : α)
    (d' : β) (h : i < l.length) : (l.map f).getD i d' = f (l.getD i d) := by
  induction l generalizing i with
  | nil => simp at h
  | cons x xs ih =>
    cases i with
    | zero => rfl
    | succ j => simpa using ih j (by simpa using h)

theorem getD_mem_of_lt {α : Type} (l : List α) (i : Nat) (d : α)
    (h : i < l.length) : l.getD i d ∈ l := by
  induction l generalizing i with
  | nil => simp at h
  | cons x xs ih =>
    cases i with
    | zero => simp [List.getD]
    | succ j =>
      have := ih j (by simpa using h)
      simpa using Or.inr this

theorem mem_insertDate {x d : Int} {l : List Int} :
    x ∈ insertDate d l ↔ x = d ∨ x ∈ l := by
  induction l with
  | nil => simp [insertDate]
  | cons e es ih =>
    by_cases h1 : d < e
    · simp [insertDate, h1]
    · by_cases h2 : d = e
      · subst h2
        simp only [insertDate, if_neg h1, if_pos rfl]
        constructor
        · intro hx; exact Or.inr hx
        · intro hx
          cases hx with
          | inl hx => simp [hx]
          | inr hx => exact hx
      · simp only [insertDate, if_neg h1, if_neg h2, List.mem_cons, ih]
        tauto

theorem mem_foldr_insertDate {x : Int} {l : List Int} :
    x ∈ l.foldr insertDate [] ↔ x ∈ l := by
  induction l with
  | nil => simp
  | cons e es ih => simp [mem_insertDate, ih]

theorem mem_unionDates {x : Int} {ls : List (String × List (Int × ℚ))} :
    x ∈ unionDates ls ↔ x ∈ allDates ls := by
  unfold unionDates
  exact mem_foldr_insertDate

theorem foldl_min_le_init (l : List Int) (a : Int) : l.foldl min a ≤ a := by
  induction l generalizing a with
  | nil => simp
  | cons x xs ih => exact le_trans (ih (min a x)) (min_le_left a x)

theorem foldl_min_le_of_mem {l : List Int} {x : Int} (a : Int) (h : x ∈ l) :
    l.foldl min a ≤ x := by
  induction l generalizing a with
  | nil => cases h
  | cons y ys ih =>
    cases h with
    | head => exact le_trans (foldl_min_le_init ys (min a x)) (min_le_right a x)
    | tail _ h' => exact ih (min a y) h'

theorem foldl_min_mem_or_init (l : List Int) (a : Int) :
    l.foldl min a = a ∨ l.foldl min a ∈ l := by
  induction l generalizing a with
  | nil => simp
  | cons x xs ih =>
    rcases ih (min a x) with h | h
    · rcases min_cases a x with ⟨he, _⟩ | ⟨he, _⟩
      · left; simpa [he] using h
      · right; rw [List.foldl_cons, h, he]; exact List.mem_cons_self x xs
    · right; exact List.mem_cons_of_mem x h

theorem foldl_max_init_le (l : List Int) (a : Int) : a ≤ l.foldl max a := by
  induction l generalizing a with
  | nil => simp
  | cons x xs ih => exact le_trans (le_max_left a x) (ih (max a x))

theorem foldl_max_le_of_mem {l : List Int} {x : Int} (a : Int) (h : x ∈ l) :
    x ≤ l.foldl max a := by
  induction l generalizing a with
  | nil => cases h
  | cons y ys ih =>
    cases h with
    | head => exact le_trans (le_max_right a x) (foldl_max_init_le ys (max a x))
    | tail _ h' => exact ih (max a y) h'

theorem foldl_max_mem_or_init (l : List Int) (a : Int) :
    l.foldl max a = a ∨ l.foldl max a ∈ l := by
  induction l generalizing a with
  | nil => simp
  | cons x xs ih =>
    rcases ih (max a x) with h | h
    · rcases max_cases a x with ⟨he, _⟩ | ⟨he, _⟩
      · left; simpa [he] using h
      · right; rw [List.foldl_cons, h, he]; exact List.mem_cons_self x xs
    · right; exact List.mem_cons_of_mem x h

theorem idxMin_le_of_mem {l : List Int} {x : Int} (h : x ∈ l) : idxMin l ≤ x := by
  cases l with
  | nil => cases h
  | cons d ds =>
    cases h with
    | head => exact foldl_min_le_init ds x
    | tail _ h' => exact foldl_min_le_of_mem d h'

theorem idxMin_mem {l : List Int} (h : ¬ l = []) : idxMin l ∈ l := by
  cases l with
  | nil => exact absurd rfl h
  | cons d ds =>
    rcases foldl_min_mem_or_init ds d with h' | h'
    · simp [idxMin, h']
    · exact List.mem_cons_of_mem d h'

theorem le_idxMax_of_mem {l : List Int} {x : Int} (h : x ∈ l) : x ≤ idxMax l := by
  cases l with
  | nil => cases h
  | cons d ds =>
    cases h with
    | head => exact foldl_max_init_le ds x
    | tail _ h' => exact foldl_max_le_of_mem d h'

theorem idxMax_mem {l : List Int} (h : ¬ l = []) : idxMax l ∈ l := by
  cases l with
  | nil => exact absurd rfl h
  | cons d ds =>
    rcases foldl_max_mem_or_init ds d with h' | h'
    · simp [idxMax, h']
    · exact List.mem_cons_of_mem d h'

theorem idxMin_congr {l l' : List Int} (h : ¬ l = []) (h' : ¬ l' = [])
    (hm : ∀ x, x ∈ l ↔ x ∈ l') : idxMin l = idxMin l' := by
  apply le_antisymm
  · exact idxMin_le_of_mem ((hm _).mpr (idxMin_mem h'))
  · exact idxMin_le_of_mem ((hm _).mp (idxMin_mem h))

theorem idxMax_congr {l l' : List Int} (h : ¬ l = []) (h' : ¬ l' = [])
    (hm : ∀ x, x ∈ l ↔ x ∈ l') : idxMax l = idxMax l' := by
  apply le_antisymm
  · exact le_idxMax_of_mem ((hm _).mp (idxMax_mem h))
  · exact le_idxMax_of_mem ((hm _).mpr (idxMax_mem h'))

theorem idxMin_append {a b : List Int} (ha : ¬ a = []) (hb : ¬ b = []) :
    idxMin (a ++ b) = min (idxMin a) (idxMin b) := by
  apply le_antisymm
  · apply le_min
    · exact idxMin_le_of_mem (List.mem_append_left b (idxMin_mem ha))
    · exact idxMin_le_of_mem (List.mem_append_right a (idxMin_mem hb))
  · have hmem := idxMin_mem (l := a ++ b) (by simp [ha])
    rcases List.mem_append.mp hmem with h | h
    · exact le_trans (min_le_left _ _) (idxMin_le_of_mem h)
    · exact le_trans (min_le_right _ _) (idxMin_le_of_mem h)

theorem idxMax_append {a b : List Int} (ha : ¬ a = []) (hb : ¬ b = []) :
    idxMax (a ++ b) = max (idxMax a) (idxMax b) := by
  apply le_antisymm
  · have hmem := idxMax_mem (l := a ++ b) (by simp [ha])
    rcases List.mem_append.mp hmem with h | h
    · exact le_trans (le_idxMax_of_mem h) (le_max_left _ _)
    · exact le_trans (le_idxMax_of_mem h) (le_max_right _ _)
  · apply max_le
    · exact le_idxMax_of_mem (List.mem_append_left b (idxMax_mem ha))
    · exact le_idxMax_of_mem (List.mem_append_right a (idxMax_mem hb))

theorem mem_dateRange {lo hi d : Int} : d ∈ dateRange lo hi ↔ lo ≤ d ∧ d ≤ hi := by
  unfold dateRange
  simp only [List.mem_map, List.mem_range]
  constructor
  · rintro ⟨k, hk, hkd⟩
    omega
  · intro h
    exact ⟨(d - lo).toNat, by omega, by omega⟩

theorem chain'_dateRange (lo hi : Int) : List.Chain' (· < ·) (dateRange lo hi) := by
  apply List.Pairwise.chain'
  unfold dateRange
  exact List.Pairwise.map _ (fun a b hab => by omega) (List.pairwise_lt_range _)

theorem colLookup_append_left {cols cols' : List (String × List (Option ℚ))}
    {name : String} {vs : List (Option ℚ)} (h : colLookup cols name = some vs) :
    colLookup (cols ++ cols') name = some vs := by
  induction cols with
  | nil => simp [colLookup] at h
  | cons c cs ih =>
    by_cases hc : c.1 = name
    · simpa [colLookup, hc] using h
    · simp only [colLookup, if_neg hc] at h
      simpa [colLookup, hc] using ih h

theorem colLookup_append_right {cols cols' : List (String × List (Option ℚ))}
    {name : String} (h : ∀ c ∈ cols, ¬ c.1 = name) :
    colLookup (cols ++ cols') name = colLookup cols' name := by
  induction cols with
  | nil => rfl
  | cons c cs ih =>
    have hc := h c (List.mem_cons_self c cs)
    simp only [List.cons_append, colLookup, if_neg hc]
    exact ih (fun c' hc' => h c' (List.mem_cons_of_mem c hc'))

theorem colLookup_isSome_of_mem {cols : List (String × List (Option ℚ))}
    {name : String} (h : name ∈ cols.map Prod.fst) :
    ∃ vs, colLookup cols name = some vs := by
  induction cols with
  | nil => simp at h
  | cons c cs ih =>
    by_cases hc : c.1 = name
    · exact ⟨c.2, by simp [colLookup, hc]⟩
    · have hcs : name ∈ cs.map Prod.fst := by
        rcases List.mem_map.mp h with ⟨u, hu, hu1⟩
        cases hu with
        | head => exact absurd hu1 hc
        | tail _ hu' => exact List.mem_map.mpr ⟨u, hu', hu1⟩
      obtain ⟨vs, hvs⟩ := ih hcs
      exact ⟨vs, by simp [colLookup, hc, hvs]⟩

theorem colLookup_map_snd (g : List (Option ℚ) → List (Option ℚ))
    (cols : List (String × List (Option ℚ))) (name : String) :
    colLookup (cols.map (fun c => (c.1, g c.2))) name
      = (colLookup cols name).map g := by
  induction cols with
  | nil => rfl
  | cons c cs ih =>
    by_cases hc : c.1 = name <;> simp [colLookup, hc, ih]

theorem dfOfSeries_index (nd : List (String × List (Int × ℚ))) :
    (dfOfSeries nd).index = unionDates nd := rfl

theorem dfOfSeries_columns (nd : List (String × List (Int × ℚ))) :
    (dfOfSeries nd).columns = nd.map Prod.fst := by
  simp [dfOfSeries, DataFrame.columns]

theorem reindex_index (df : DataFrame) (r : List Int) : (reindex df r).index = r := rfl

theorem reindex_columns (df : DataFrame) (r : List Int) :
    (reindex df r).columns = df.columns := by
  simp [reindex, DataFrame.columns]

theorem concatCols_columns (a b : DataFrame) :
    (concatCols a b).columns = a.columns ++ b.columns := by
  simp [concatCols, DataFrame.columns]

theorem colLookup_reindex (df : DataFrame) (r : List Int) (name : String) :
    colLookup (reindex df r).cols name
      = (colLookup df.cols name).map (fun vs => r.map (fun d =>
          match posOf df.index d with
          | some i => vs.getD i none
          | none => none)) := by
  exact colLookup_map_snd (fun vs => r.map (fun d =>
    match posOf df.index d with
    | some i => vs.getD i none
    | none => none)) df.cols name

theorem cellAt_reindex (df : DataFrame) (r : List Int) (name : String) {d : Int}
    (hd : d ∈ r) : cellAt (reindex df r) name d = cellAt df name d := by
  unfold cellAt
  rw [colLookup_reindex, reindex_index]
  cases hcl : colLookup df.cols name with
  | none => simp
  | some vs =>
    obtain ⟨j, hj, hjl, hjd⟩ := posOf_eq_some_of_mem hd
    simp only [Option.map_some', hj]
    rw [getD_map_of_lt _ r j 0 none hjl, hjd]
    cases posOf df.index d <;> rfl

theorem cellAt_concat_left (a b : DataFrame) (name : String) (d : Int)
    (h : name ∈ a.columns) : cellAt (concatCols a b) name d = cellAt a name d := by
  obtain ⟨vs, hvs⟩ := colLookup_isSome_of_mem h
  unfold cellAt concatCols
  simp only [colLookup_append_left hvs, hvs]

theorem allDates_ne_nil {nd : List (String × List (Int × ℚ))}
    (hnd : ¬ nd = []) (hser : ∀ s ∈ nd, ¬ s.2 = []) : ¬ allDates nd = [] := by
  cases nd with
  | nil => exact absurd rfl hnd
  | cons s rest =>
    have hs := hser s (List.mem_cons_self s rest)
    cases hp : s.2 with
    | nil => exact absurd hp hs
    | cons p ps =>
      intro hcon
      simp [allDates, hp] at hcon

theorem unionDates_ne_nil {nd : List (String × List (Int × ℚ))}
    (hnd : ¬ nd = []) (hser : ∀ s ∈ nd, ¬ s.2 = []) : ¬ unionDates nd = [] := by
  obtain ⟨x, hx⟩ := List.exists_mem_of_ne_nil _ (allDates_ne_nil hnd hser)
  exact List.ne_nil_of_mem (mem_unionDates.mpr hx)

theorem dfOfSeries_not_emptyDF {nd : List (String × List (Int × ℚ))}
    (hnd : ¬ nd = []) (hser : ∀ s ∈ nd, ¬ s.2 = []) :
    (dfOfSeries nd).isEmptyDF = false := by
  have h1 := unionDates_ne_nil hnd hser
  unfold dfOfSeries DataFrame.isEmptyDF
  simp [h1, hnd]

theorem combineData_union (cd : DataFrame) (nd : List (String × List (Int × ℚ)))
    (hcd : cd.isEmptyDF = false) (hnd : ¬ nd = []) (hser : ∀ s ∈ nd, ¬ s.2 = []) :
    combineData (Cached.df cd) nd
      = Except.ok (Cached.df (concatCols
          (reindex cd (dateRange
            (min (idxMin cd.index) (idxMin (unionDates nd)))
            (max (idxMax cd.index) (idxMax (unionDates nd)))))
          (reindex (dfOfSeries nd) (dateRange
            (min (idxMin cd.index) (idxMin (unionDates nd)))
            (max (idxMax cd.index) (idxMax (unionDates nd))))))) := by
  have h1 : nd.isEmpty = false := by
    cases nd with
    | nil => exact absurd rfl hnd
    | cons s rest => rfl
  have h2 := dfOfSeries_not_emptyDF hnd hser
  simp only [combineData, h1, Bool.false_eq_true, if_false, h2, hcd,
    dfOfSeries_index]

theorem combineData_coldIndex (cd : DataFrame) (nd : List (String × List (Int × ℚ)))
    (hcd : cd.isEmptyDF = true) (hnd : ¬ nd = []) (hser : ∀ s ∈ nd, ¬ s.2 = []) :
    combineData (Cached.df cd) nd
      = Except.ok (Cached.df (reindex (dfOfSeries nd)
          (dateRange (idxMin (unionDates nd)) (idxMax (unionDates nd))))) := by
  have h1 : nd.isEmpty = false := by
    cases nd with
    | nil => exact absurd rfl hnd
    | cons s rest => rfl
  have h2 := dfOfSeries_not_emptyDF hnd hser
  simp only [combineData, h1, Bool.false_eq_true, if_false, h2, hcd, if_true,
    dfOfSeries_index]

theorem reindex_col_length {df : DataFrame} {r : List Int}
    {c : String × List (Option ℚ)} (hc : c ∈ (reindex df r).cols) :
    c.2.length = r.length := by
  unfold reindex at hc
  rcases List.mem_map.mp hc with ⟨c0, _, rfl⟩
  simp

/-- C2 (amended): when an indicator key occurs both as a column of the cached
dataset and among the newly fetched series, the merge does not overwrite and
does not deduplicate: the result's column labels are the cached labels
followed by the newly fetched keys, so the key now labels at least two
columns, the cached one coming first. -/
theorem c2_merge_keeps_both_columns (cd : DataFrame)
    (nd : List (String × List (Int × ℚ))) (name : String)
    (hcd : cd.isEmptyDF = false) (hnd : ¬ nd = [])
    (hser : ∀ s ∈ nd, ¬ s.2 = [])
    (hname : name ∈ cd.columns) (hnew : name ∈ nd.map Prod.fst) :
    ∃ df', combineData (Cached.df cd) nd = Except.ok (Cached.df df')
      ∧ df'.columns = cd.columns ++ nd.map Prod.fst
      ∧ 2 ≤ df'.columns.count name := by
  refine ⟨_, combineData_union cd nd hcd hnd hser, ?_, ?_⟩
  · rw [concatCols_columns, reindex_columns, reindex_columns, dfOfSeries_columns]
  · rw [concatCols_columns, reindex_columns, reindex_columns, dfOfSeries_columns,
      List.count_append]
    have h1 : 0 < cd.columns.count name := List.count_pos_iff.mpr hname
    have h2 : 0 < (nd.map Prod.fst).count name := List.count_pos_iff.mpr hnew
    omega

/-- C3 (amended): in a `forceRefresh=false` merge from a loaded nonempty
cache, a cached indicator that is not among the successfully fetched series
still appears in the merged result, and at every date of the cached index its
cell is exactly the cached cell (the reindexing onto the union daily axis
only adds missing cells at new dates).  With `forceRefresh=true` the cache is
never loaded, so nothing cached can be preserved (the run in fact raises). -/
theorem c3_unfetched_cached_column_preserved (cd : DataFrame)
    (nd : List (String × List (Int × ℚ))) (name : String)
    (hcd : cd.isEmptyDF = false) (hnd : ¬ nd = [])
    (hser : ∀ s ∈ nd, ¬ s.2 = [])
    (hname : name ∈ cd.columns) (_hnot : name ∉ nd.map Prod.fst) :
    ∃ df', combineData (Cached.df cd) nd = Except.ok (Cached.df df')
      ∧ name ∈ df'.columns
      ∧ ∀ d ∈ cd.index, cellAt df' name d = cellAt cd name d := by
  refine ⟨_, combineData_union cd nd hcd hnd hser, ?_, ?_⟩
  · rw [concatCols_columns, reindex_columns]
    exact List.mem_append_left _ hname
  · intro d hd
    have hdr : d ∈ dateRange
        (min (idxMin cd.index) (idxMin (unionDates nd)))
        (max (idxMax cd.index) (idxMax (unionDates nd))) := by
      refine mem_dateRange.mpr ⟨?_, ?_⟩
      · exact le_trans (min_le_left _ _) (idxMin_le_of_mem hd)
      · exact le_trans (le_idxMax_of_mem hd) (le_max_left _ _)
    rw [cellAt_concat_left _ _ _ _ (by rw [reindex_columns]; exact hname)]
    exact cellAt_reindex cd _ name hdr

/-- C5: whenever the merge incorporates at least one newly fetched nonempty
series (and the loaded cache is a DataFrame — a cold start instead raises,
see C1), the result's row index is the contiguous daily axis from the
earliest to the latest date occurring in the cached dataset or the new
series: strictly increasing, no duplicates, and containing exactly the days
of that span; every column is aligned to that axis (absent observations are
missing cells by construction of `reindex`). -/
theorem c5_union_daily_index (cd : DataFrame) (nd : List (String × List (Int × ℚ)))
    (hcols : ¬ cd.cols = []) (hnd : ¬ nd = []) (hser : ∀ s ∈ nd, ¬ s.2 = []) :
    ∃ df', combineData (Cached.df cd) nd = Except.ok (Cached.df df')
      ∧ df'.index = dateRange (idxMin (cd.index ++ allDates nd))
          (idxMax (cd.index ++ allDates nd))
      ∧ List.Chain' (· < ·) df'.index
      ∧ (∀ d : Int, d ∈ df'.index ↔
          idxMin (cd.index ++ allDates nd) ≤ d
            ∧ d ≤ idxMax (cd.index ++ allDates nd))
      ∧ ∀ c ∈ df'.cols, c.2.length = df'.index.length := by
  have had := allDates_ne_nil hnd hser
  have hud := unionDates_ne_nil hnd hser
  have hmin_u : idxMin (unionDates nd) = idxMin (allDates nd) :=
    idxMin_congr hud had (fun x => mem_unionDates)
  have hmax_u : idxMax (unionDates nd) = idxMax (allDates nd) :=
    idxMax_congr hud had (fun x => mem_unionDates)
  by_cases hempty : cd.index = []
  · have hcd : cd.isEmptyDF = true := by
      simp [DataFrame.isEmptyDF, hempty]
    refine ⟨_, combineData_coldIndex cd nd hcd hnd hser, ?_, ?_, ?_, ?_⟩
    · rw [reindex_index, hempty, List.nil_append, hmin_u, hmax_u]
    · rw [reindex_index]
      exact chain'_dateRange _ _
    · intro d
      rw [reindex_index, hempty, List.nil_append, hmin_u, hmax_u]
      exact mem_dateRange
    · intro c hc
      rw [reindex_index]
      exact reindex_col_length hc
  · have hcd : cd.isEmptyDF = false := by
      simp [DataFrame.isEmptyDF, hempty, hcols]
    have hargs_min : min (idxMin cd.index) (idxMin (unionDates nd))
        = idxMin (cd.index ++ allDates nd) := by
      rw [idxMin_append hempty had, hmin_u]
    have hargs_max : max (idxMax cd.index) (idxMax (unionDates nd))
        = idxMax (cd.index ++ allDates nd) := by
      rw [idxMax_append hempty had, hmax_u]
    refine ⟨_, combineData_union cd nd hcd hnd hser, ?_, ?_, ?_, ?_⟩
    · show dateRange _ _ = _
      rw [hargs_min, hargs_max]
    · exact chain'_dateRange _ _
    · intro d
      show d ∈ dateRange _ _ ↔ _
      rw [hargs_min, hargs_max]
      exact mem_dateRange
    · intro c hc
      rcases List.mem_append.mp hc with h | h
      · exact reindex_col_length h
      · exact reindex_col_length h

/-- C1: on a cold start (no persisted cache artifact) with one indicator whose
fetch succeeds with one observation, `fetch_fred_data` does not return the
merged dataset: it raises `AttributeError`, because the empty cache is the
dict `{}` and the merge step evaluates `cached_data.empty` on it.  The claim
that the run terminates normally is contradicted by the code. -/
theorem c1_cold_start_raises_attribute_error :
    fetch_fred_data ⟨none, none⟩ [("GDP", "GDP")]
      (fun _ => FetchResult.ok [((0 : Int), (1 : ℚ))]) false
      = Except.error dictEmptyError := by
  rfl

/-- C2 counterexample: with the cache holding column `GDP` (value 1 on day 0)
and a stale empty metadata sidecar, a run that re-fetches `GDP` (new value 2
on day 0) returns a frame with TWO columns labelled `GDP`, and the label
lookup still finds the old cached value 1: `pd.concat` keeps both columns, it
does not overwrite the cached one with the newly fetched series. -/
theorem c2_counterexample_duplicate_column :
    (fetch_fred_data ⟨some ⟨[0], [("GDP", [some 1])]⟩, some []⟩ [("GDP", "GDP")]
        (fun _ => FetchResult.ok [((0 : Int), (2 : ℚ))]) false).toOption.map
        (fun p => (p.1.columns, cellAt p.1 "GDP" 0))
      = some (["GDP", "GDP"], some 1) := by
  rfl

/-- C3 counterexample: a `forceRefresh=true` run on a cache holding a `CPI`
column, where the `CPI` fetch fails and the `GDP` fetch succeeds, does not
keep `CPI`'s cached column: `force_refresh=True` skips loading the cache
entirely, and the run then raises `AttributeError` on the initial dict, so no
merged result exists at all. -/
theorem c3_counterexample_force_refresh_drops_cache :
    fetch_fred_data ⟨some ⟨[0], [("CPI", [some 5])]⟩, some ["CPI"]⟩
        [("GDP", "GDP"), ("CPI", "CPI")]
        (fun sid => if sid = "GDP" then FetchResult.ok [((0 : Int), (3 : ℚ))]
          else FetchResult.err "HTTPError") true
      = Except.error dictEmptyError := by
  rfl

/-- C7 counterexample: the persisted dataset has column `CPI` but the
metadata sidecar exists and disagrees (it is empty); the loader returns the
stale sidecar as the cached-indicator set, and the fetch decision therefore
re-fetches `CPI` — the metadata is NOT recomputed from the dataset's columns
when a sidecar is present. -/
theorem c7_counterexample_stale_sidecar_trusted :
    (loadCache ⟨some ⟨[0], [("CPI", [some 1])]⟩, some []⟩ false).2.1 = []
      ∧ indicatorsToFetch [("CPI", "CPI")] [] false = [("CPI", "CPI")] := by
  exact ⟨rfl, rfl⟩

theorem append_suffix_ne {c s1 s2 : String} (hne : ¬ s1 = s2) :
    ¬ (c ++ s1) = (c ++ s2) := by
  intro h
  apply hne
  rw [String.ext_iff] at h ⊢
  rw [String.data_append, String.data_append] at h
  exact List.append_cancel_left h

theorem setCol_of_fresh {cols : List (String × List (Option ℚ))} {name : String}
    (vs : List (Option ℚ)) (h : ∀ c ∈ cols, ¬ c.1 = name) :
    setCol cols name vs = cols ++ [(name, vs)] := by
  have hany : cols.any (fun c => c.1 = name) = false := by
    rw [List.any_eq_false]
    intro c hc
    simp [h c hc]
  unfold setCol
  rw [hany]
  simp

theorem foldl_setCol_fresh :
    ∀ (trips acc : List (String × List (Option ℚ))),
      (∀ t ∈ trips, ∀ c ∈ acc, ¬ c.1 = t.1) →
      (trips.map Prod.fst).Nodup →
      trips.foldl (fun a t => setCol a t.1 t.2) acc = acc ++ trips := by
  intro trips
  induction trips with
  | nil =>
    intro acc _ _
    simp
  | cons t ts ih =>
    intro acc hfresh hnodup
    have hnodup' : (t.1 :: ts.map Prod.fst).Nodup := by simpa using hnodup
    have h1 : setCol acc t.1 t.2 = acc ++ [t] := by
      have := setCol_of_fresh t.2 (fun c hc => hfresh t (List.mem_cons_self t ts) c hc)
      simpa using this
    simp only [List.foldl_cons, h1]
    rw [ih (acc ++ [t]) ?_ ?_]
    · simp
    · intro u hu c hc
      rcases List.mem_append.mp hc with h | h
      · exact hfresh u (List.mem_cons_of_mem t hu) c h
      · have hct : c = t := by simpa using h
        subst hct
        have ht1 : c.1 ∉ ts.map Prod.fst := (List.nodup_cons.mp hnodup').1
        intro hcon
        apply ht1
        rw [hcon]
        exact List.mem_map.mpr ⟨u, hu, rfl⟩
    · exact (List.nodup_cons.mp hnodup').2

theorem addPctChangeColumns_cols (df : DataFrame)
    (h : (df.columns ++ (df.cols.flatMap derivedTriple).map Prod.fst).Nodup) :
    (addPctChangeColumns df).cols = df.cols ++ df.cols.flatMap derivedTriple := by
  unfold addPctChangeColumns
  apply foldl_setCol_fresh
  · intro t ht c hc
    have h1 : c.1 ∈ df.columns := List.mem_map.mpr ⟨c, hc, rfl⟩
    have h2 : t.1 ∈ (df.cols.flatMap derivedTriple).map Prod.fst :=
      List.mem_map.mpr ⟨t, ht, rfl⟩
    have hdisj := (List.nodup_append.mp h).2.2
    intro hcon
    exact hdisj h1 (hcon ▸ h2)
  · exact (List.nodup_append.mp h).2.1

theorem mom_mem_trips {c : String} {vs : List (Option ℚ)}
    {cols : List (String × List (Option ℚ))} (hc : (c, vs) ∈ cols) :
    (c ++ " MoM (%)") ∈ (cols.flatMap derivedTriple).map Prod.fst := by
  apply List.mem_map.mpr
  refine ⟨(c ++ " MoM (%)", mul100 (pctChange 1 vs)), ?_, rfl⟩
  exact List.mem_flatMap.mpr ⟨(c, vs), hc, by simp [derivedTriple]⟩

theorem qoq_mem_trips {c : String} {vs : List (Option ℚ)}
    {cols : List (String × List (Option ℚ))} (hc : (c, vs) ∈ cols) :
    (c ++ " QoQ (%)") ∈ (cols.flatMap derivedTriple).map Prod.fst := by
  apply List.mem_map.mpr
  refine ⟨(c ++ " QoQ (%)", mul100 (pctChange 3 vs)), ?_, rfl⟩
  exact List.mem_flatMap.mpr ⟨(c, vs), hc, by simp [derivedTriple]⟩

theorem yoy_mem_trips {c : String} {vs : List (Option ℚ)}
    {cols : List (String × List (Option ℚ))} (hc : (c, vs) ∈ cols) :
    (c ++ " YoY (%)") ∈ (cols.flatMap derivedTriple).map Prod.fst := by
  apply List.mem_map.mpr
  refine ⟨(c ++ " YoY (%)", mul100 (pctChange 12 vs)), ?_, rfl⟩
  exact List.mem_flatMap.mpr ⟨(c, vs), hc, by simp [derivedTriple]⟩

theorem colLookup_trips (cols : List (String × List (Option ℚ)))
    (hnd : ((cols.flatMap derivedTriple).map Prod.fst).Nodup)
    {c : String} {vs : List (Option ℚ)} (hc : (c, vs) ∈ cols) :
    colLookup (cols.flatMap derivedTriple) (c ++ " MoM (%)")
        = some (mul100 (pctChange 1 vs))
      ∧ colLookup (cols.flatMap derivedTriple) (c ++ " QoQ (%)")
        = some (mul100 (pctChange 3 vs))
      ∧ colLookup (cols.flatMap derivedTriple) (c ++ " YoY (%)")
        = some (mul100 (pctChange 12 vs)) := by
  induction cols with
  | nil => cases hc
  | cons c0 rest ih =>
    rcases List.mem_cons.mp hc with heq | htail
    · subst heq
      have hne_mq : ¬ (c ++ " MoM (%)") = (c ++ " QoQ (%)") :=
        append_suffix_ne (by decide)
      have hne_my : ¬ (c ++ " MoM (%)") = (c ++ " YoY (%)") :=
        append_suffix_ne (by decide)
      have hne_qy : ¬ (c ++ " QoQ (%)") = (c ++ " YoY (%)") :=
        append_suffix_ne (by decide)
      refine ⟨?_, ?_, ?_⟩
      · simp [derivedTriple, colLookup]
      · simp [derivedTriple, colLookup, hne_mq]
      · simp [derivedTriple, colLookup, hne_my, hne_qy]
    · have hnd' : ((derivedTriple c0).map Prod.fst
          ++ (rest.flatMap derivedTriple).map Prod.fst).Nodup := by
        simpa [List.flatMap_cons] using hnd
      have hndR := (List.nodup_append.mp hnd').2.1
      have hdisj := (List.nodup_append.mp hnd').2.2
      obtain ⟨hm, hq, hy⟩ := ih hndR htail
      have hskip : ∀ target, target ∈ (rest.flatMap derivedTriple).map Prod.fst →
          colLookup ((c0 :: rest).flatMap derivedTriple) target
            = colLookup (rest.flatMap derivedTriple) target := by
        intro target htarget
        rw [List.flatMap_cons]
        apply colLookup_append_right
        intro e he hcon
        exact hdisj (List.mem_map.mpr ⟨e, he, rfl⟩) (hcon ▸ htarget)
      exact ⟨(hskip _ (mom_mem_trips htail)).trans hm,
        (hskip _ (qoq_mem_trips htail)).trans hq,
        (hskip _ (yoy_mem_trips htail)).trans hy⟩

theorem pctChange_length (n : Nat) (vs : List (Option ℚ)) :
    (pctChange n vs).length = vs.length := by
  simp [pctChange]

theorem mul100_length (vs : List (Option ℚ)) : (mul100 vs).length = vs.length := by
  simp [mul100]

theorem pctChange_getD (n : Nat) (vs : List (Option ℚ)) (t : Nat) (h : t < vs.length) :
    (pctChange n vs).getD t none
      = if t < n then none
        else match vs.getD (t - n) none, vs.getD t none with
          | some b, some a => some ((a - b) / b)
          | _, _ => none := by
  unfold pctChange
  rw [getD_map_of_lt _ (List.range vs.length) t 0 none (by simpa using h)]
  have hr : (List.range vs.length).getD t 0 = t := by
    rw [List.getD_eq_getElem _ _ (by simpa using h)]
    simp
  rw [hr]

theorem mul100_getD (vs : List (Option ℚ)) (t : Nat) (h : t < vs.length) :
    (mul100 vs).getD t none = (vs.getD t none).map (fun q => q * 100) := by
  unfold mul100
  exact getD_map_of_lt _ vs t none none h

theorem map_fst_flatMap_trips (cols : List (String × List (Option ℚ))) :
    ((cols.flatMap derivedTriple).map Prod.fst)
      = cols.flatMap (fun c =>
          [c.1 ++ " MoM (%)", c.1 ++ " QoQ (%)", c.1 ++ " YoY (%)"]) := by
  induction cols with
  | nil => rfl
  | cons c0 rest ih => simp [derivedTriple, ih]

theorem length_flatMap_trips (cols : List (String × List (Option ℚ))) :
    (cols.flatMap (fun c =>
        [c.1 ++ " MoM (%)", c.1 ++ " QoQ (%)", c.1 ++ " YoY (%)"])).length
      = 3 * cols.length := by
  induction cols with
  | nil => rfl
  | cons c0 rest ih =>
    simp only [List.flatMap_cons, List.length_append, ih, List.length_cons]
    simp
    omega

/-- C8: derived-column lookback.  For a monthly column with exactly 11
populated rows, none of them the zero observation (`pct_change` at a zero
base gives NaN or ±inf in pandas, outside the rational embedding's domain —
the same definedness condition C9 assumes), the YoY column is a missing cell
on every row (12 preceding rows are never available), the QoQ column is
missing on the first three rows, and the MoM column is missing on the first
row and populated from the second row onward; no error and no zero is
produced by insufficient lookback. -/
theorem c8_insufficient_lookback_is_no_value (df : DataFrame) (c : String)
    (vs : List (Option ℚ))
    (hnd : (df.columns ++ (df.cols.flatMap derivedTriple).map Prod.fst).Nodup)
    (hc : (c, vs) ∈ df.cols)
    (hlen : vs.length = 11)
    (hpop : ∀ v ∈ vs, v.isSome = true)
    (_hnz : ∀ v ∈ vs, ¬ v = some 0) :
    (∃ ly, colLookup (addPctChangeColumns df).cols (c ++ " YoY (%)") = some ly
      ∧ ∀ v ∈ ly, v = none)
    ∧ (∃ lq, colLookup (addPctChangeColumns df).cols (c ++ " QoQ (%)") = some lq
      ∧ ∀ t < 3, lq.getD t none = none)
    ∧ (∃ lm, colLookup (addPctChangeColumns df).cols (c ++ " MoM (%)") = some lm
      ∧ lm.getD 0 none = none
      ∧ ∀ t, 1 ≤ t → t < 11 → (lm.getD t none).isSome = true) := by
  have hcols := addPctChangeColumns_cols df hnd
  have hndT := (List.nodup_append.mp hnd).2.1
  have hdisj := (List.nodup_append.mp hnd).2.2
  obtain ⟨hm, hq, hy⟩ := colLookup_trips df.cols hndT hc
  have hskip : ∀ target, target ∈ (df.cols.flatMap derivedTriple).map Prod.fst →
      colLookup (addPctChangeColumns df).cols target
        = colLookup (df.cols.flatMap derivedTriple) target := by
    intro target htarget
    rw [hcols]
    apply colLookup_append_right
    intro e he hcon
    exact hdisj (List.mem_map.mpr ⟨e, he, rfl⟩) (hcon ▸ htarget)
  refine ⟨⟨mul100 (pctChange 12 vs), (hskip _ (yoy_mem_trips hc)).trans hy, ?_⟩,
    ⟨mul100 (pctChange 3 vs), (hskip _ (qoq_mem_trips hc)).trans hq, ?_⟩,
    ⟨mul100 (pctChange 1 vs), (hskip _ (mom_mem_trips hc)).trans hm, ?_, ?_⟩⟩
  · intro v hv
    rcases List.mem_map.mp hv with ⟨w, hw, rfl⟩
    have hw' : w ∈ (List.range vs.length).map (fun t =>
        if t < 12 then none
        else match vs.getD (t - 12) none, vs.getD t none with
          | some b, some a => some ((a - b) / b)
          | _, _ => none) := hw
    rcases List.mem_map.mp hw' with ⟨t, ht, rfl⟩
    have ht' : t < 11 := by
      have := List.mem_range.mp ht
      omega
    rw [if_pos (by omega)]
    rfl
  · intro t ht
    rw [mul100_getD _ t (by rw [pctChange_length, hlen]; omega),
      pctChange_getD 3 vs t (by omega), if_pos ht]
    rfl
  · rw [mul100_getD _ 0 (by rw [pctChange_length, hlen]; omega),
      pctChange_getD 1 vs 0 (by omega), if_pos (by omega)]
    rfl
  · intro t ht1 ht2
    have hbm := getD_mem_of_lt vs (t - 1) none (by omega)
    have ham := getD_mem_of_lt vs t none (by omega)
    obtain ⟨b, hbv⟩ := Option.isSome_iff_exists.mp (hpop _ hbm)
    obtain ⟨a, hav⟩ := Option.isSome_iff_exists.mp (hpop _ ham)
    rw [mul100_getD _ t (by rw [pctChange_length, hlen]; omega),
      pctChange_getD 1 vs t (by omega), if_neg (by omega), hbv, hav]
    rfl

/-- C9: numeric correctness of the percentage-change formula.  For any raw
monthly column `C` and row `t` whose own and preceding cells are populated
(with nonzero base value), the `C MoM (%)` cell at row `t` is exactly
`(C[t] - C[t-1]) / C[t-1] * 100`; QoQ and YoY use the same formula with the
values 3 and 12 rows prior (same `pctChange` kernel with another period). -/
theorem c9_mom_percentage_formula (df : DataFrame) (c : String)
    (vs : List (Option ℚ)) (t : Nat) (a b : ℚ)
    (hnd : (df.columns ++ (df.cols.flatMap derivedTriple).map Prod.fst).Nodup)
    (hc : (c, vs) ∈ df.cols)
    (ht1 : 1 ≤ t) (ht2 : t < vs.length)
    (hbv : vs.getD (t - 1) none = some b) (hav : vs.getD t none = some a)
    (_hb0 : ¬ b = 0) :
    ∃ lm, colLookup (addPctChangeColumns df).cols (c ++ " MoM (%)") = some lm
      ∧ lm.getD t none = some ((a - b) / b * 100) := by
  have hcols := addPctChangeColumns_cols df hnd
  have hndT := (List.nodup_append.mp hnd).2.1
  have hdisj := (List.nodup_append.mp hnd).2.2
  obtain ⟨hm, _, _⟩ := colLookup_trips df.cols hndT hc
  have hskip : colLookup (addPctChangeColumns df).cols (c ++ " MoM (%)")
      = colLookup (df.cols.flatMap derivedTriple) (c ++ " MoM (%)") := by
    rw [hcols]
    apply colLookup_append_right
    intro e he hcon
    exact hdisj (List.mem_map.mpr ⟨e, he, rfl⟩) (hcon ▸ mom_mem_trips hc)
  refine ⟨mul100 (pctChange 1 vs), hskip.trans hm, ?_⟩
  rw [mul100_getD _ t (by rw [pctChange_length]; exact ht2),
    pctChange_getD 1 vs t ht2, if_neg (by omega), hbv, hav]
  rfl

/-- C10: the derived-columns loop ranges over the snapshot of the raw columns
only, and each derived series is computed from its raw column's snapshot
values, so for an input with N columns (whose labels do not collide with the
derived labels) the output has exactly the N raw columns plus the three
companions of each — 4N columns, and no iterated name such as
`C MoM (%) MoM (%)` can occur. -/
theorem c10_four_columns_per_raw_column (df : DataFrame)
    (hnd : (df.columns ++ (df.cols.flatMap derivedTriple).map Prod.fst).Nodup) :
    (addPctChangeColumns df).columns
        = df.columns ++ df.cols.flatMap (fun c =>
            [c.1 ++ " MoM (%)", c.1 ++ " QoQ (%)", c.1 ++ " YoY (%)"])
      ∧ (addPctChangeColumns df).columns.length = 4 * df.columns.length
      ∧ ∀ name, name ∈ (addPctChangeColumns df).columns ↔
          name ∈ df.columns ∨ ∃ k ∈ df.columns,
            name = k ++ " MoM (%)" ∨ name = k ++ " QoQ (%)"
              ∨ name = k ++ " YoY (%)" := by
  have hcols := addPctChangeColumns_cols df hnd
  have heq : (addPctChangeColumns df).columns
      = df.columns ++ df.cols.flatMap (fun c =>
          [c.1 ++ " MoM (%)", c.1 ++ " QoQ (%)", c.1 ++ " YoY (%)"]) := by
    unfold DataFrame.columns
    rw [hcols, List.map_append, map_fst_flatMap_trips]
  refine ⟨heq, ?_, ?_⟩
  · rw [heq, List.length_append, length_flatMap_trips]
    have hl : df.columns.length = df.cols.length := by simp [DataFrame.columns]
    omega
  · intro name
    rw [heq]
    simp only [List.mem_append, List.mem_flatMap, List.mem_cons, List.not_mem_nil,
      or_false, DataFrame.columns, List.mem_map]
    constructor
    · rintro (h | ⟨cc, hcc, h⟩)
      · exact Or.inl h
      · exact Or.inr ⟨cc.1, ⟨cc, hcc, rfl⟩, h⟩
    · rintro (h | ⟨k, ⟨cc, hcc, rfl⟩, h⟩)
      · exact Or.inl h
      · exact Or.inr ⟨cc, hcc, h⟩

/-- C4: idempotence of the merge.  When the cache artifact and its metadata
sidecar exist and the sidecar already contains every catalog key, a
`forceRefresh=false` run fetches nothing and returns the cached DataFrame
itself — same columns, same index, same values. -/
theorem c4_no_fetch_returns_cache_unchanged (fs : FileSystem) (cd : DataFrame)
    (m : List String) (catalog : List (String × String))
    (fetch : String → FetchResult)
    (h1 : fs.cacheFile = some cd) (h2 : fs.metadataFile = some m)
    (h3 : ∀ p ∈ catalog, m.contains p.1 = true) :
    ∃ fs', fetch_fred_data fs catalog fetch false = Except.ok (cd, fs') := by
  have hload : loadCache fs false = (Cached.df cd, m, fs) := by
    unfold loadCache
    rw [h1, h2]
  have hfetch : indicatorsToFetch catalog m false = [] := by
    unfold indicatorsToFetch
    rw [List.filter_eq_nil_iff]
    intro p hp
    rw [h3 p hp]
    simp
  have hrun : runFetchLoop fetch [] = [] := rfl
  have hcomb : combineData (Cached.df cd) [] = Except.ok (Cached.df cd) := rfl
  simp only [fetch_fred_data, hload, hfetch, hrun, hcomb]
  by_cases hcd : cd.isEmptyDF = true
  · exact ⟨fs, by simp [saveCache, hcd]⟩
  · exact ⟨⟨some cd, some cd.columns⟩, by simp [saveCache, hcd]⟩

theorem runFetchLoop_keys_sub {fetch : String → FetchResult}
    {l : List (String × String)} {k : String}
    (h : k ∈ (runFetchLoop fetch l).map Prod.fst) : ∃ q ∈ l, q.1 = k := by
  induction l with
  | nil => simp [runFetchLoop] at h
  | cons q qs ih =>
    obtain ⟨key, sid⟩ := q
    cases hq : fetch sid with
    | ok s =>
      by_cases hs : s.isEmpty = true
      · simp only [runFetchLoop, hq, hs, if_true] at h
        obtain ⟨u, hu, hu1⟩ := ih h
        exact ⟨u, List.mem_cons_of_mem _ hu, hu1⟩
      · simp only [runFetchLoop, hq, hs, if_false, Bool.false_eq_true,
          List.map_cons, List.mem_cons] at h
        rcases h with h | h
        · exact ⟨(key, sid), List.mem_cons_self _ _, h.symm⟩
        · obtain ⟨u, hu, hu1⟩ := ih h
          exact ⟨u, List.mem_cons_of_mem _ hu, hu1⟩
    | err e =>
      simp only [runFetchLoop, hq] at h
      obtain ⟨u, hu, hu1⟩ := ih h
      exact ⟨u, List.mem_cons_of_mem _ hu, hu1⟩

theorem runFetchLoop_skip_bad (fetch : String → FetchResult)
    (pre post : List (String × String)) (p : String × String)
    (hbad : (∃ e, fetch p.2 = FetchResult.err e) ∨ fetch p.2 = FetchResult.ok []) :
    runFetchLoop fetch (pre ++ p :: post) = runFetchLoop fetch (pre ++ post) := by
  induction pre with
  | nil =>
    obtain ⟨key, sid⟩ := p
    rcases hbad with ⟨e, he⟩ | he
    · simp [runFetchLoop, he]
    · simp [runFetchLoop, he]
  | cons q qs ih =>
    obtain ⟨k2, s2⟩ := q
    cases hq : fetch s2 with
    | ok s =>
      by_cases hs : s.isEmpty = true
      · simp [runFetchLoop, hq, hs, ih]
      · simp [runFetchLoop, hq, hs, ih]
    | err e => simp [runFetchLoop, hq, ih]

/-- C6: a per-indicator failure never escalates.  If fetching indicator `p`
raises after its retries are exhausted, or succeeds with zero observations,
the fetch loop behaves exactly as if `p` were absent — the remaining
indicators are still fetched, the loop returns normally (it is a total
function), and `p` contributes no new column. -/
theorem c6_failed_indicator_skipped_and_run_continues
    (fetch : String → FetchResult) (pre post : List (String × String))
    (p : String × String)
    (hbad : (∃ e, fetch p.2 = FetchResult.err e) ∨ fetch p.2 = FetchResult.ok [])
    (hname : ∀ q ∈ pre ++ post, ¬ q.1 = p.1) :
    runFetchLoop fetch (pre ++ p :: post) = runFetchLoop fetch (pre ++ post)
      ∧ p.1 ∉ (runFetchLoop fetch (pre ++ p :: post)).map Prod.fst := by
  have heq := runFetchLoop_skip_bad fetch pre post p hbad
  refine ⟨heq, ?_⟩
  rw [heq]
  intro hmem
  obtain ⟨q, hq, hq1⟩ := runFetchLoop_keys_sub hmem
  exact hname q hq hq1

/-- C7 (amended): every successful save of a nonempty frame rewrites the
metadata sidecar as exactly the saved frame's column list, so metadata and
data agree after a save; but the fetch decision trusts an existing sidecar
even when it disagrees with the dataset — the indicator set is recomputed
from the columns only when the sidecar file is absent. -/
theorem c7_save_regenerates_metadata_but_load_trusts_sidecar
    (dfc : Cached) (fs : FileSystem) (d : DataFrame) (fs' : FileSystem)
    (cd : DataFrame) (m : List String)
    (hsave : saveCache dfc fs = Except.ok (d, fs'))
    (hne : d.isEmptyDF = false) :
    fs'.metadataFile = some d.columns ∧ fs'.cacheFile = some d
      ∧ (loadCache ⟨some cd, some m⟩ false).2.1 = m
      ∧ (loadCache ⟨some cd, none⟩ false).2.1 = cd.columns := by
  cases dfc with
  | emptyDict => simp [saveCache] at hsave
  | df dd =>
    by_cases hdd : dd.isEmptyDF = true
    · simp only [saveCache, if_pos hdd, Except.ok.injEq, Prod.mk.injEq] at hsave
      obtain ⟨hd, hfs⟩ := hsave
      subst hd
      rw [hne] at hdd
      exact absurd hdd (by simp)
    · simp only [saveCache, if_neg hdd, Except.ok.injEq, Prod.mk.injEq] at hsave
      obtain ⟨hd, hfs⟩ := hsave
      subst hd
      subst hfs
      exact ⟨rfl, rfl, rfl, rfl⟩

/-- Witness for the C4 theorem at a concrete run. -/
theorem c4_no_fetch_returns_cache_unchanged_witness :
    ∃ fs', fetch_fred_data ⟨some ⟨[0], [("GDP", [some 4])]⟩, some ["GDP"]⟩
        [("GDP", "GDP")] (fun _ => FetchResult.err "down") false
      = Except.ok (⟨[0], [("GDP", [some 4])]⟩, fs') :=
  c4_no_fetch_returns_cache_unchanged _ _ ["GDP"] _ _ rfl rfl (by decide)

/-- Witness for the C6 theorem at a concrete fetch loop. -/
theorem c6_failed_indicator_skipped_witness :
    runFetchLoop (fun sid => if sid = "B" then FetchResult.err "boom"
        else FetchResult.ok [((0 : Int), (1 : ℚ))])
        ([("A", "A")] ++ ("B", "B") :: [("C", "C")])
      = runFetchLoop (fun sid => if sid = "B" then FetchResult.err "boom"
          else FetchResult.ok [((0 : Int), (1 : ℚ))]) ([("A", "A")] ++ [("C", "C")])
      ∧ "B" ∉ (runFetchLoop (fun sid => if sid = "B" then FetchResult.err "boom"
          else FetchResult.ok [((0 : Int), (1 : ℚ))])
          ([("A", "A")] ++ ("B", "B") :: [("C", "C")])).map Prod.fst :=
  c6_failed_indicator_skipped_and_run_continues _ _ _ _
    (Or.inl ⟨"boom", by rfl⟩) (by decide)

/-- Witness for the amended C7 theorem at a concrete save and load. -/
theorem c7_save_load_witness :
    (loadCache ⟨some ⟨[0], [("A", [some 1])]⟩, some ["B"]⟩ false).2.1 = ["B"]
      ∧ (loadCache ⟨some ⟨[0], [("A", [some 1])]⟩, none⟩ false).2.1
          = (⟨[0], [("A", [some 1])]⟩ : DataFrame).columns := by
  have h := c7_save_regenerates_metadata_but_load_trusts_sidecar
    (Cached.df ⟨[0], [("A", [some 1])]⟩) ⟨none, none⟩
    ⟨[0], [("A", [some 1])]⟩ ⟨some ⟨[0], [("A", [some 1])]⟩, some ["A"]⟩
    ⟨[0], [("A", [some 1])]⟩ ["B"] (by rfl) (by rfl)
  exact ⟨h.2.2.1, h.2.2.2⟩

/-- Witness for the amended C2 theorem at a concrete merge. -/
theorem c2_merge_keeps_both_columns_witness :
    ∃ df', combineData (Cached.df ⟨[0], [("GDP", [some 1])]⟩)
        [("GDP", [((0 : Int), (2 : ℚ))])] = Except.ok (Cached.df df')
      ∧ 2 ≤ df'.columns.count "GDP" := by
  obtain ⟨df', h1, _, h3⟩ := c2_merge_keeps_both_columns
    ⟨[0], [("GDP", [some 1])]⟩ [("GDP", [((0 : Int), (2 : ℚ))])] "GDP"
    (by rfl) (by simp) (by simp) (by simp [DataFrame.columns]) (by simp)
  exact ⟨df', h1, h3⟩

/-- Witness for the amended C3 theorem at a concrete merge. -/
theorem c3_unfetched_cached_column_preserved_witness :
    ∃ df', combineData (Cached.df ⟨[0], [("CPI", [some 5])]⟩)
        [("GDP", [((2 : Int), (3 : ℚ))])] = Except.ok (Cached.df df')
      ∧ cellAt df' "CPI" 0 = some 5 := by
  obtain ⟨df', h1, _, h3⟩ := c3_unfetched_cached_column_preserved
    ⟨[0], [("CPI", [some 5])]⟩ [("GDP", [((2 : Int), (3 : ℚ))])] "CPI"
    (by rfl) (by simp) (by simp) (by simp [DataFrame.columns]) (by simp)
  refine ⟨df', h1, ?_⟩
  have hv := h3 0 (by simp)
  rw [hv]
  rfl

/-- Witness for the C5 theorem at a concrete merge. -/
theorem c5_union_daily_index_witness :
    ∃ df', combineData (Cached.df ⟨[0, 1], [("A", [some 1, none])]⟩)
        [("B", [((3 : Int), (7 : ℚ))])] = Except.ok (Cached.df df')
      ∧ List.Chain' (· < ·) df'.index := by
  obtain ⟨df', h1, _, h3, _⟩ := c5_union_daily_index
    ⟨[0, 1], [("A", [some 1, none])]⟩ [("B", [((3 : Int), (7 : ℚ))])]
    (by simp) (by simp) (by simp)
  exact ⟨df', h1, h3⟩

/-- Witness for the C8 theorem on a column with exactly 11 populated monthly
rows: its YoY column is entirely missing. -/
theorem c8_insufficient_lookback_witness :
    ∃ ly, colLookup (addPctChangeColumns ⟨[0, 1, 2, 3, 4, 5, 6, 7, 8, 9, 10],
        [("X", [some 1, some 2, some 3, some 4, some 5, some 6, some 7, some 8,
          some 9, some 10, some 11])]⟩).cols ("X" ++ " YoY (%)") = some ly
      ∧ ∀ v ∈ ly, v = none := by
  exact (c8_insufficient_lookback_is_no_value
    ⟨[0, 1, 2, 3, 4, 5, 6, 7, 8, 9, 10],
      [("X", [some 1, some 2, some 3, some 4, some 5, some 6, some 7, some 8,
        some 9, some 10, some 11])]⟩ "X"
    [some 1, some 2, some 3, some 4, some 5, some 6, some 7, some 8,
      some 9, some 10, some 11]
    (by decide) (by decide) (by decide) (by decide) (by decide)).1

/-- Witness for the C9 theorem: monthly values 100, 110, 121 give a MoM value
of exactly 10 at the third row. -/
theorem c9_mom_percentage_formula_witness :
    ∃ lm, colLookup (addPctChangeColumns
        ⟨[0, 1, 2], [("X", [some 100, some 110, some 121])]⟩).cols
        ("X" ++ " MoM (%)") = some lm
      ∧ lm.getD 2 none = some 10 := by
  obtain ⟨lm, h1, h2⟩ := c9_mom_percentage_formula
    ⟨[0, 1, 2], [("X", [some 100, some 110, some 121])]⟩ "X"
    [some 100, some 110, some 121] 2 121 110
    (by decide) (by decide) (by decide) (by decide) (by decide) (by decide)
    (by decide)
  refine ⟨lm, h1, ?_⟩
  rw [h2]
  norm_num

/-- Witness for the C10 theorem on a two-column frame: the output has exactly
eight columns. -/
theorem c10_four_columns_per_raw_column_witness :
    (addPctChangeColumns ⟨[0], [("A", [some 1]), ("B", [some 2])]⟩).columns.length
      = 4 * (⟨[0], [("A", [some 1]), ("B", [some 2])]⟩ : DataFrame).columns.length :=
  (c10_four_columns_per_raw_column
    ⟨[0], [("A", [some 1]), ("B", [some 2])]⟩ (by decide)).2.1

end EconDash
